import Mathlib

/-!
Verification of the real-time collaboration server (`src/server/src/index.ts`,
the richest server variant).  The mutable global maps of the source
(`rooms`, `clients`, `documents`, `activities`, `mergeLogs`) are embedded as a
pure state record; JavaScript `Map`s keyed by strings become either function
maps (`String → Option _`) or, where the source enumerates their entries,
association lists.  Nondeterministic inputs of the source (`uuidv4()`,
`new Date()`, `Date.getTime()` parsing) are passed in as explicit parameters.
WebSocket sends are modelled as emitted event values; the transport itself is
out of scope.
-/

namespace Collab

/-- Drawing action kinds (the `actionType` union of the source). -/
inductive ActionType where
  | draw | erase | move | resize | lock | unlock
deriving DecidableEq

/-- Record `DrawingAction` of the source; `elementData : any` is kept as an
opaque string payload. -/
structure DrawingAction where
  id : String
  userId : String
  userName : String
  actionType : ActionType
  elementId : String
  elementData : String
  timestamp : String
deriving DecidableEq

/-- Record `User` of the source, minus the `ws` transport handle (I/O). -/
structure User where
  id : String
  name : String
  roomId : String
  isActive : Bool
  lastSeen : String
deriving DecidableEq

/-- Record `Room` of the source.  `users : Map<string,User>` is embedded as
its key set in insertion order (the `User` objects themselves live in the
global client registry, which the JS `Map` values alias);
`lockedElements : Map<string,string>` is embedded as its entry list in
insertion order, so that the `room-state` snapshot can enumerate it the way
`Array.from(room.lockedElements.entries())` does. -/
structure Room where
  id : String
  name : String
  users : List String
  drawingHistory : List DrawingAction
  lockedElements : List (String × String)
  createdAt : String
  updatedAt : String
deriving DecidableEq

/-- Outbound events of the server (field sets of the JSON payloads that the
claims inspect). -/
inductive OutEvent where
  | userJoined (userId userName : String) (userCount : Nat)
  | userLeft (userId userName : String) (userCount : Nat)
  | roomState (roomId roomName : String) (userIds : List String)
      (history : List DrawingAction) (locks : List (String × String))
  | elementLocked (elementId lockedBy : String)
  | elementUnlocked (elementId unlockedBy : String)
  | documentMerged (projectId content : String) (version : Nat)
      (mergedBy mergeTimestamp : String)
  | roomJoined (roomId userName : String)
  | roomJoinFailed (roomId : String)
deriving DecidableEq

/-- Delivery target of an outbound event: `sendToUser`, `broadcastToRoom`,
or the `wss.clients.forEach` global broadcast. -/
inductive Target where
  | user (uid : String)
  | room (rid : String)
  | all
deriving DecidableEq

/-- One emitted send: delivery target paired with the event payload. -/
abbrev Event := Target × OutEvent

/-- JS `Map.get` on an association list (first entry with the key wins, as in a
JS `Map`, whose keys are unique). -/
def mapGet : List (String × String) → String → Option String
  | [], _ => none
  | (k, v) :: rest, e => if k = e then some v else mapGet rest e

/-- JS `Map.delete` on an association list. -/
def mapDelete : List (String × String) → String → List (String × String)
  | [], _ => []
  | (k, v) :: rest, e => if k = e then mapDelete rest e else (k, v) :: mapDelete rest e

/-- JS `Map.delete` on the key set of the `users` map. -/
def removeId : List String → String → List String
  | [], _ => []
  | k :: rest, uid => if k = uid then removeId rest uid else k :: removeId rest uid

/-- Process-wide mutable state of the room/session subsystem: the global
`rooms` and `clients` maps. -/
structure ServerState where
  rooms : String → Option Room
  clients : String → Option User

/-- Point update of the `rooms` map (`rooms.set`). -/
def setRoom (s : ServerState) (rid : String) (r : Room) : ServerState :=
  { s with rooms := fun k => if k = rid then some r else s.rooms k }

/-- Point removal from the `rooms` map (`rooms.delete`). -/
def delRoom (s : ServerState) (rid : String) : ServerState :=
  { s with rooms := fun k => if k = rid then none else s.rooms k }

/-- Point update of the `clients` map (`clients.set`, and the effect of
mutating the aliased `User` object in place). -/
def setClient (s : ServerState) (uid : String) (u : User) : ServerState :=
  { s with clients := fun k => if k = uid then some u else s.clients k }

/-- Function `createRoom` of the source.  The generated `uuidv4()` id and the
`new Date().toISOString()` stamp are parameters. -/
def createRoom (s : ServerState) (roomId name nowStr : String) : ServerState × Room :=
  let room : Room :=
    { id := roomId, name := name, users := [], drawingHistory := [],
      lockedElements := [], createdAt := nowStr, updatedAt := nowStr }
  (setRoom s roomId room, room)

/-- Function `addUserToRoom` of the source: fails when the room is absent or holds 20
members; otherwise stores the user, mutates the user's room pointer and
liveness fields, broadcasts `user-joined` to the room and unicasts the
`room-state` snapshot to the joining user. -/
def addUserToRoom (s : ServerState) (roomId : String) (user : User) (nowStr : String) :
    ServerState × Bool × List Event :=
  match s.rooms roomId with
  | none => (s, false, [])
  | some room =>
    if 20 ≤ room.users.length then (s, false, [])
    else
      let users' := if user.id ∈ room.users then room.users else room.users ++ [user.id]
      let room' := { room with users := users', updatedAt := nowStr }
      let user' := { user with roomId := roomId, isActive := true, lastSeen := nowStr }
      let s' := setClient (setRoom s roomId room') user.id user'
      (s', true,
        [(Target.room roomId, OutEvent.userJoined user.id user.name users'.length),
         (Target.user user.id,
           OutEvent.roomState roomId room'.name users' room'.drawingHistory
             room'.lockedElements)])

/-- Function `removeUserFromRoom` of the source: looks the user up in `clients`, then
its room; deletes the membership, marks the user inactive, broadcasts
`user-left` with the updated count, and deletes the room when it became
empty. -/
def removeUserFromRoom (s : ServerState) (userId nowStr : String) :
    ServerState × Bool × List Event :=
  match s.clients userId with
  | none => (s, false, [])
  | some user =>
    match s.rooms user.roomId with
    | none => (s, false, [])
    | some room =>
      let users' := removeId room.users userId
      let room' := { room with users := users', updatedAt := nowStr }
      let user' := { user with isActive := false }
      let s1 := setClient (setRoom s user.roomId room') userId user'
      let evs := [(Target.room user.roomId,
        OutEvent.userLeft userId user.name users'.length)]
      if users'.length = 0 then (delRoom s1 user.roomId, true, evs)
      else (s1, true, evs)

/-- Function `lockElement` of the source: fails when the room is absent or the element
already has a holder (whoever it is); on success records the holder and
broadcasts `element-locked`. -/
def lockElement (s : ServerState) (roomId elementId userId nowStr : String) :
    ServerState × Bool × List Event :=
  match s.rooms roomId with
  | none => (s, false, [])
  | some room =>
    if (mapGet room.lockedElements elementId).isSome then (s, false, [])
    else
      let room' := { room with
        lockedElements := room.lockedElements ++ [(elementId, userId)],
        updatedAt := nowStr }
      (setRoom s roomId room', true,
        [(Target.room roomId, OutEvent.elementLocked elementId userId)])

/-- Function `unlockElement` of the source: fails when the room is absent, the element
has no holder, or the requester is not the holder; on success removes the
entry and broadcasts `element-unlocked`. -/
def unlockElement (s : ServerState) (roomId elementId userId nowStr : String) :
    ServerState × Bool × List Event :=
  match s.rooms roomId with
  | none => (s, false, [])
  | some room =>
    match mapGet room.lockedElements elementId with
    | none => (s, false, [])
    | some lockedBy =>
      if lockedBy ≠ userId then (s, false, [])
      else
        let room' := { room with
          lockedElements := mapDelete room.lockedElements elementId,
          updatedAt := nowStr }
        (setRoom s roomId room', true,
          [(Target.room roomId, OutEvent.elementUnlocked elementId userId)])

/-- History append of `addDrawingAction`: push, then
`splice(0, length - 1000)` when the length exceeds 1000. -/
def pushHistory (h : List DrawingAction) (a : DrawingAction) : List DrawingAction :=
  let h' := h ++ [a]
  if 1000 < h'.length then h'.drop (h'.length - 1000) else h'

/-- Function `addDrawingAction` of the source. -/
def addDrawingAction (s : ServerState) (roomId : String) (a : DrawingAction)
    (nowStr : String) : ServerState × Bool :=
  match s.rooms roomId with
  | none => (s, false)
  | some room =>
    (setRoom s roomId
      { room with drawingHistory := pushHistory room.drawingHistory a,
                  updatedAt := nowStr }, true)

/-- Folding a sequence of drawing actions into one room
(repeated `addDrawingAction` calls). -/
def applyActions (s : ServerState) (roomId : String) (as : List DrawingAction)
    (nowStr : String) : ServerState :=
  as.foldl (fun st a => (addDrawingAction st roomId a nowStr).1) s

/-- Per-project document record (`DocumentContent` of the source).
`lastModified` is the timestamp string the source stores and compares with
`!==`. -/
structure DocumentContent where
  content : String
  version : Nat
  lastModified : String
  lastModifiedBy : String
deriving DecidableEq

/-- Resolution kinds of a merge-log entry. -/
inductive Resolution where
  | auto | manual
deriving DecidableEq

/-- Record `MergeLog` of the source (`conflictRange` flattened into its two
fields; both bounds are naturals because each split produces at least one
line). -/
structure MergeLog where
  id : String
  projectId : String
  userA : String
  userB : String
  conflictStart : Nat
  conflictEnd : Nat
  resolvedBy : String
  timestamp : String
  resolutionType : Resolution
  userAContent : String
  userBContent : String
  mergedContent : String
deriving DecidableEq

/-- JS `content.split('\n')` on the character list: splitting an empty
string yields `[""]`, a trailing newline yields a trailing empty line. -/
def splitNl : List Char → List (List Char)
  | [] => [[]]
  | c :: rest =>
    let r := splitNl rest
    if c = '\n' then [] :: r
    else
      match r with
      | [] => [[c]]
      | line :: rest' => (c :: line) :: rest'

/-- JS `content.split('\n')` as a `String`-level operation. -/
def splitLines (s : String) : List String :=
  (splitNl s.data).map (fun cs => String.mk cs)

/-- JS `lines.join('\n')`. -/
def joinNl : List String → String
  | [] => ""
  | [l] => l
  | l :: rest => l ++ "\n" ++ joinNl rest

/-- The forEach loop of `mergeDocuments`: `merged` is the mutable
`mergedLines` array, `i` the forEach index.  `curTs` models
`new Date(documents[projectId].lastModified).getTime()` and `nowTs` the
freshly generated `new Date().getTime()` (the source reads both afresh on
every iteration, but neither changes during the loop).  A line that differs
from the base line at the same index is replaced when `curTs < nowTs`
(`userLineTimestamp > currentLineTimestamp`); an index beyond the base
length appends the incoming line.  The catch-branch of the source is dead
(nothing in the try throws), so only the try path is embedded. -/
def mergeLoop (curTs nowTs : Nat) : List String → List String → Nat → List String
  | merged, [], _ => merged
  | merged, u :: us, i =>
    mergeLoop curTs nowTs
      (if h : i < merged.length then
        if merged.get ⟨i, h⟩ ≠ u then
          if curTs < nowTs then merged.set i u else merged
        else merged
      else merged ++ [u]) us (i + 1)

/-- Function `mergeDocuments` of the source.  Inputs that the source reads from
ambient state or generates are parameters: `storedBy` is
`documents[projectId]?.lastModifiedBy` at call time, `curTs`/`nowTs` the two
`getTime()` values of the line loop, `nowStr` the log stamp, `mergeId` the
generated uuid.  Returns the merged content and the merge-log entry (none on
the validation-failure fallback, which returns the current content
unchanged). -/
def mergeDocuments (currentContent userContent userId projectId storedBy : String)
    (curTs nowTs : Nat) (nowStr mergeId : String) : String × Option MergeLog :=
  if currentContent = "" ∨ userContent = "" ∨ userId = "" ∨ projectId = "" then
    (currentContent, none)
  else
    let currentLines := splitLines currentContent
    let userLines := splitLines userContent
    let mergedLines := mergeLoop curTs nowTs currentLines userLines 0
    let mergedContent := joinNl mergedLines
    let entry : MergeLog :=
      { id := mergeId, projectId := projectId,
        userA := if storedBy = "" then "unknown" else storedBy,
        userB := userId, conflictStart := 0,
        conflictEnd := max currentLines.length userLines.length - 1,
        resolvedBy := userId, timestamp := nowStr, resolutionType := Resolution.auto,
        userAContent := currentContent, userBContent := userContent,
        mergedContent := mergedContent }
    (mergedContent, some entry)

/-- State of the document merge engine: the `documents` record plus the
in-memory `mergeLogs` array (whose `saveMergeLogs` cap also truncates the
in-memory array). -/
structure DocState where
  documents : String → Option DocumentContent
  mergeLogs : List MergeLog

/-- A `document-edit` payload as received from the wire: each field may be
absent, and the source's `!field` truthiness check treats an absent field
and an empty string alike. -/
structure EditData where
  projectId : Option String
  userId : Option String
  userName : Option String
  cursorPosition : Option Nat
  actionType : Option String
  content : Option String
  timestamp : Option String

/-- JS truthiness of an optional string field (absent and `""` are falsy). -/
def truthy : Option String → Bool
  | none => false
  | some s => s != ""

/-- The `saveMergeLogs` cap: `splice(0, length - 1000)` once the array holds
more than 1000 entries (it mutates the in-memory array too). -/
def capLogs (logs : List MergeLog) : List MergeLog :=
  if 1000 < logs.length then logs.drop (logs.length - 1000) else logs

/-- Point update of the `documents` record (`documents[projectId] = ...`). -/
def setDoc (f : String → Option DocumentContent) (pid : String) (d : DocumentContent) :
    String → Option DocumentContent :=
  fun k => if k = pid then some d else f k

/-- Function `handleDocumentConflict` of the source.  `parse` models
`s => new Date(s).getTime()`, `nowTs`/`nowStr` the wall clock at handling
time, `mergeId` the uuid generated for a merge-log entry.  Invalid payloads
(a missing or empty project id, user id, content or timestamp) return the
state untouched.  A first edit creates version 1.  Otherwise the conflict
test is `lastModified !== timestamp && lastModifiedBy !== userId`: without
conflict the content is replaced and the version incremented; with conflict
the merge runs, the version is incremented, and `document-merged` is
broadcast to every connection. -/
def handleDocumentConflict (ds : DocState) (data : EditData) (parse : String → Nat)
    (nowTs : Nat) (nowStr mergeId : String) : DocState × List Event :=
  if truthy data.projectId && truthy data.userId && truthy data.content &&
      truthy data.timestamp then
    let projectId := data.projectId.getD ""
    let userId := data.userId.getD ""
    let content := data.content.getD ""
    let timestamp := data.timestamp.getD ""
    match ds.documents projectId with
    | none =>
      ({ ds with documents := setDoc ds.documents projectId
                   { content := content, version := 1, lastModified := timestamp,
                     lastModifiedBy := userId } }, [])
    | some currentDoc =>
      if currentDoc.lastModified ≠ timestamp ∧ currentDoc.lastModifiedBy ≠ userId then
        let m := mergeDocuments currentDoc.content content userId projectId
          currentDoc.lastModifiedBy (parse currentDoc.lastModified) nowTs nowStr mergeId
        ({ documents := setDoc ds.documents projectId
                          { content := m.1, version := currentDoc.version + 1,
                            lastModified := nowStr, lastModifiedBy := userId },
           mergeLogs := match m.2 with
                        | some entry => capLogs (ds.mergeLogs ++ [entry])
                        | none => ds.mergeLogs },
         [(Target.all, OutEvent.documentMerged projectId m.1 (currentDoc.version + 1)
             userId nowStr)])
      else
        ({ ds with documents := setDoc ds.documents projectId
                     { content := content, version := currentDoc.version + 1,
                       lastModified := timestamp, lastModifiedBy := userId } }, [])
  else (ds, [])

/-- Activity record of the per-project audit ring. -/
structure Activity where
  id : String
  projectId : Option String
  userId : String
  userName : String
  actionType : Option String
  cursorPosition : Option Nat
  content : Option String
  timestamp : String

/-- The `case 'document-edit'` dispatcher arm: pushes an activity record into
the per-project 20-entry ring (keyed by `data.projectId`; an absent project
id lands under the JS property key `"undefined"`), then invokes
`handleDocumentConflict` on the raw payload. -/
def documentEditCase (acts : String → List Activity) (ds : DocState) (data : EditData)
    (clientId clientName : String) (parse : String → Nat) (nowTs : Nat)
    (nowStr activityId mergeId : String) :
    (String → List Activity) × DocState × List Event :=
  let key := match data.projectId with
    | some p => p
    | none => "undefined"
  let activity : Activity :=
    { id := activityId, projectId := data.projectId, userId := clientId,
      userName := clientName, actionType := data.actionType,
      cursorPosition := data.cursorPosition, content := data.content,
      timestamp := nowStr }
  let l := acts key ++ [activity]
  let l' := if 20 < l.length then l.drop 1 else l
  let acts' := fun k => if k = key then l' else acts k
  let r := handleDocumentConflict ds data parse nowTs nowStr mergeId
  (acts', r.1, r.2)

/-- The display name a `join-room` payload resolves to: the submitted
`data.userName` unless absent or empty, in which case the user's current
name (`data.userName || user.name`). -/
def uname (unameOpt : Option String) (user : User) : String :=
  match unameOpt with
  | some n => if n = "" then user.name else n
  | none => user.name

/-- The `case 'join-room'` dispatcher arm: renames the connection's user to
the submitted display name (falling back to the current one when absent or
empty — the mutation persists even if the join fails), attempts
`addUserToRoom`, and answers `room-joined` or `room-join-failed`. -/
def joinRoomCase (s : ServerState) (clientId roomId : String)
    (userNameOpt : Option String) (nowStr : String) : ServerState × List Event :=
  match s.clients clientId with
  | none => (s, [])
  | some user =>
    let userName := uname userNameOpt user
    let user1 := { user with name := userName }
    let s1 := setClient s clientId user1
    let r := addUserToRoom s1 roomId user1 nowStr
    if r.2.1 then
      (r.1, r.2.2 ++ [(Target.user clientId, OutEvent.roomJoined roomId userName)])
    else
      (r.1, r.2.2 ++ [(Target.user clientId, OutEvent.roomJoinFailed roomId)])

/-- The `ws.on('close')` cleanup: `removeUserFromRoom` then
`clients.delete(clientId)`. -/
def closeCase (s : ServerState) (clientId nowStr : String) : ServerState × List Event :=
  let r := removeUserFromRoom s clientId nowStr
  ({ rooms := r.1.rooms,
     clients := fun k => if k = clientId then none else r.1.clients k }, r.2.2)

/-- At most one holder is recorded per element in a lock table. -/
def atMostOneHolder (locks : List (String × String)) : Prop :=
  ∀ e u v, (e, u) ∈ locks → (e, v) ∈ locks → u = v

/-- Every room of the state has a lock table with at most one holder per
element. -/
def locksUnique (s : ServerState) : Prop :=
  ∀ rid room, s.rooms rid = some room → atMostOneHolder room.lockedElements

lemma mapGet_none_not_mem {l : List (String × String)} {e : String}
    (h : mapGet l e = none) : ∀ v, (e, v) ∉ l := by
  induction l with
  | nil => intro v hv; exact (List.not_mem_nil _) hv
  | cons p rest ih =>
    intro v hv
    obtain ⟨k, w⟩ := p
    by_cases hk : k = e
    · subst hk
      simp [mapGet] at h
    · rcases List.mem_cons.mp hv with h1 | h1
      · exact hk (congrArg Prod.fst h1).symm
      · simp only [mapGet, if_neg hk] at h
        exact ih h v h1

lemma mapGet_append_key {l : List (String × String)} {e : String} (u : String)
    (h : mapGet l e = none) : mapGet (l ++ [(e, u)]) e = some u := by
  induction l with
  | nil => simp [mapGet]
  | cons p rest ih =>
    obtain ⟨k, w⟩ := p
    by_cases hk : k = e
    · subst hk; simp [mapGet] at h
    · simp only [mapGet, if_neg hk] at h
      simp only [List.cons_append, mapGet, if_neg hk]
      exact ih h

lemma mem_mapDelete {l : List (String × String)} {e : String} {p : String × String}
    (h : p ∈ mapDelete l e) : p ∈ l := by
  induction l with
  | nil => simp [mapDelete] at h
  | cons q rest ih =>
    obtain ⟨k, w⟩ := q
    by_cases hk : k = e
    · simp only [mapDelete, if_pos hk] at h
      exact List.mem_cons_of_mem _ (ih h)
    · simp only [mapDelete, if_neg hk] at h
      rcases List.mem_cons.mp h with h1 | h1
      · exact List.mem_cons.mpr (Or.inl h1)
      · exact List.mem_cons_of_mem _ (ih h1)

lemma atMostOneHolder_append {l : List (String × String)} {e u : String}
    (hl : atMostOneHolder l) (hnone : mapGet l e = none) :
    atMostOneHolder (l ++ [(e, u)]) := by
  intro x a b ha hb
  rcases List.mem_append.mp ha with ha1 | ha1 <;>
    rcases List.mem_append.mp hb with hb1 | hb1
  · exact hl x a b ha1 hb1
  · exfalso
    simp only [List.mem_singleton, Prod.mk.injEq] at hb1
    exact mapGet_none_not_mem hnone a (hb1.1 ▸ ha1)
  · exfalso
    simp only [List.mem_singleton, Prod.mk.injEq] at ha1
    exact mapGet_none_not_mem hnone b (ha1.1 ▸ hb1)
  · simp only [List.mem_singleton, Prod.mk.injEq] at ha1 hb1
    rw [ha1.2, hb1.2]

lemma atMostOneHolder_delete {l : List (String × String)} {e : String}
    (hl : atMostOneHolder l) : atMostOneHolder (mapDelete l e) :=
  fun x a b ha hb => hl x a b (mem_mapDelete ha) (mem_mapDelete hb)

/-- C4: every reachable lock table records at most one holder per element —
`createRoom` establishes the property and `lockElement`/`unlockElement`
preserve it for every room of the state — and an unlock request by a session
that is not the holder (which covers an element with no holder at all) fails
and returns the whole state, hence the lock table, unchanged. -/
theorem C4_lock_uniqueness_and_unlock_by_nonholder :
    (∀ s rid name now, locksUnique s → locksUnique (createRoom s rid name now).1)
    ∧ (∀ s rid e u now, locksUnique s → locksUnique (lockElement s rid e u now).1)
    ∧ (∀ s rid e u now, locksUnique s → locksUnique (unlockElement s rid e u now).1)
    ∧ (∀ s rid e u now room, s.rooms rid = some room →
        (∀ h, mapGet room.lockedElements e = some h → h ≠ u) →
        unlockElement s rid e u now = (s, false, [])) := by
  refine ⟨?_, ?_, ?_, ?_⟩
  · intro s rid name now hs rid' room' h
    simp only [createRoom, setRoom] at h
    split at h
    · cases h; intro x a b ha hb; exact absurd ha (List.not_mem_nil _)
    · exact hs rid' room' h
  · intro s rid e u now hs rid' room' h
    unfold lockElement at h
    split at h
    · exact hs rid' room' h
    next room hr =>
      split at h
      · exact hs rid' room' h
      next hlock =>
        simp only [setRoom] at h
        split at h
        · cases h
          exact atMostOneHolder_append (hs rid room hr)
            (Option.not_isSome_iff_eq_none.mp (by simpa using hlock))
        · exact hs rid' room' h
  · intro s rid e u now hs rid' room' h
    unfold unlockElement at h
    split at h
    · exact hs rid' room' h
    next room hr =>
      split at h
      · exact hs rid' room' h
      next lockedBy hg =>
        split at h
        · exact hs rid' room' h
        · simp only [setRoom] at h
          split at h
          · cases h; exact atMostOneHolder_delete (hs rid room hr)
          · exact hs rid' room' h
  · intro s rid e u now room hr hnot
    unfold unlockElement
    split
    · rfl
    next room2 hr2 =>
      rw [hr] at hr2; cases hr2
      split
      · rfl
      next lockedBy hg =>
        rw [if_pos (hnot lockedBy hg)]

/-- Witness for C4 at a concrete state: a room whose element `e` is locked by
`a`; `b`'s unlock request fails and leaves the state untouched, and the
uniqueness invariant is preserved by that call. -/
theorem C4_lock_uniqueness_and_unlock_by_nonholder_witness :
    (let room : Room := ⟨"r", "R", ["a", "b"], [], [("e", "a")], "c", "u"⟩
     let s : ServerState := ⟨fun k => if k = "r" then some room else none, fun _ => none⟩
     s.rooms "r" = some room ∧ (∀ h, mapGet room.lockedElements "e" = some h → h ≠ "b")
       ∧ unlockElement s "r" "e" "b" "n" = (s, false, [])) := by
  intro room s
  have hnot : ∀ h, mapGet room.lockedElements "e" = some h → h ≠ "b" := by
    intro h hh
    have hv : mapGet room.lockedElements "e" = some "a" := rfl
    rw [hv] at hh
    injection hh with hh2
    subst hh2
    decide
  exact ⟨rfl, hnot,
    C4_lock_uniqueness_and_unlock_by_nonholder.2.2.2 s "r" "e" "b" "n" room rfl hnot⟩

/-- C5: a lock request fails with the state unchanged when the room is absent
or the element already has a holder — in particular when the requester is the
current holder attempting to re-lock; on success the holder is recorded in
the room's lock table and `element-locked` is broadcast to the room. -/
theorem C5_lock_request_cases (s : ServerState) (rid e u now : String) :
    (s.rooms rid = none → lockElement s rid e u now = (s, false, []))
    ∧ (∀ room h, s.rooms rid = some room → mapGet room.lockedElements e = some h →
        lockElement s rid e u now = (s, false, []))
    ∧ (∀ room, s.rooms rid = some room → mapGet room.lockedElements e = some u →
        lockElement s rid e u now = (s, false, []))
    ∧ (∀ room, s.rooms rid = some room → mapGet room.lockedElements e = none →
        lockElement s rid e u now =
          (setRoom s rid { room with
              lockedElements := room.lockedElements ++ [(e, u)], updatedAt := now },
            true, [(Target.room rid, OutEvent.elementLocked e u)])
        ∧ ∃ room', (lockElement s rid e u now).1.rooms rid = some room'
            ∧ mapGet room'.lockedElements e = some u) := by
  have hcase : ∀ room, s.rooms rid = some room →
      lockElement s rid e u now =
        (if (mapGet room.lockedElements e).isSome then (s, false, [])
         else (setRoom s rid { room with
             lockedElements := room.lockedElements ++ [(e, u)], updatedAt := now },
           true, [(Target.room rid, OutEvent.elementLocked e u)])) := by
    intro room hr
    unfold lockElement
    split
    · next h0 => rw [hr] at h0; cases h0
    · next room2 hr2 => rw [hr] at hr2; cases hr2; rfl
  refine ⟨?_, ?_, ?_, ?_⟩
  · intro h
    unfold lockElement
    split
    · rfl
    · next room2 hr2 => rw [h] at hr2; cases hr2
  · intro room h hr hg
    rw [hcase room hr, if_pos (by simp [hg])]
  · intro room hr hg
    rw [hcase room hr, if_pos (by simp [hg])]
  · intro room hr hg
    have heq := hcase room hr
    rw [if_neg (by simp [hg])] at heq
    refine ⟨heq, ?_⟩
    rw [heq]
    refine ⟨{ room with
                lockedElements := room.lockedElements ++ [(e, u)],
                updatedAt := now },
            ?_, mapGet_append_key u hg⟩
    simp [setRoom]

/-- Witness for C5 at a concrete state: the room exists, `e` is unlocked, the
lock succeeds recording `a`, and — after it — `a`'s own re-lock attempt
fails. -/
theorem C5_lock_request_cases_witness :
    (let room : Room := ⟨"r", "R", ["a"], [], [], "c", "u"⟩
     let s : ServerState := ⟨fun k => if k = "r" then some room else none, fun _ => none⟩
     s.rooms "r" = some room ∧ mapGet room.lockedElements "e" = none
       ∧ (∃ room', (lockElement s "r" "e" "a" "n").1.rooms "r" = some room'
            ∧ mapGet room'.lockedElements "e" = some "a")
       ∧ lockElement (lockElement s "r" "e" "a" "n").1 "r" "e" "a" "n2" =
           ((lockElement s "r" "e" "a" "n").1, false, [])) := by
  intro room s
  refine ⟨rfl, rfl, ((C5_lock_request_cases s "r" "e" "a" "n").2.2.2 room rfl rfl).2, ?_⟩
  have h1 := ((C5_lock_request_cases s "r" "e" "a" "n").2.2.2 room rfl rfl).1
  rw [h1]
  exact (C5_lock_request_cases _ "r" "e" "a" "n2").2.2.1
    { room with lockedElements := room.lockedElements ++ [("e", "a")], updatedAt := "n" }
    rfl rfl

/-- C6: `removeUserFromRoom` on a tracked user whose room exists succeeds,
and the room store afterwards holds the shrunken room exactly when members
remain; a membership removal that empties the room deletes it within the
same step, so the room is absent from the store. -/
theorem C6_empty_room_deleted (s : ServerState) (uid now : String) (user : User)
    (room : Room) (hu : s.clients uid = some user)
    (hr : s.rooms user.roomId = some room) :
    (removeUserFromRoom s uid now).2.1 = true ∧
    (removeUserFromRoom s uid now).1.rooms user.roomId =
      (if (removeId room.users uid).length = 0 then none
       else some { room with users := removeId room.users uid, updatedAt := now }) := by
  unfold removeUserFromRoom
  split
  · next h0 => rw [hu] at h0; cases h0
  next user2 hu2 =>
    rw [hu] at hu2
    injection hu2 with hu2
    subst hu2
    split
    · next h0 => rw [hr] at h0; cases h0
    next room2 hr2 =>
      rw [hr] at hr2
      injection hr2 with hr2
      subst hr2
      by_cases hlen : (removeId room.users uid).length = 0
      · rw [if_pos hlen, if_pos hlen]
        exact ⟨rfl, by simp [delRoom]⟩
      · rw [if_neg hlen, if_neg hlen]
        exact ⟨rfl, by simp [setClient, setRoom]⟩

/-- Witness for C6: removing the single member `a` of room `r` deletes the
room in the same step. -/
theorem C6_empty_room_deleted_witness :
    (let room : Room := ⟨"r", "R", ["a"], [], [], "c", "u"⟩
     let user : User := ⟨"a", "A", "r", true, "t"⟩
     let s : ServerState := ⟨fun k => if k = "r" then some room else none,
       fun k => if k = "a" then some user else none⟩
     s.clients "a" = some user ∧ s.rooms user.roomId = some room
       ∧ (removeUserFromRoom s "a" "n").1.rooms user.roomId = none) := by
  intro room user s
  refine ⟨rfl, rfl, ?_⟩
  have h := (C6_empty_room_deleted s "a" "n" user room rfl rfl).2
  rw [h]
  rfl

lemma pushHistory_eq (h : List DrawingAction) (a : DrawingAction) :
    pushHistory h a = (h ++ [a]).drop ((h ++ [a]).length - 1000) := by
  simp only [pushHistory]
  split
  · rfl
  · next hle =>
    have h0 : (h ++ [a]).length - 1000 = 0 := by
      simp only [List.length_append, List.length_singleton] at hle ⊢
      omega
    rw [h0, List.drop_zero]

set_option maxRecDepth 100000 in
lemma applyActions_history (rid now : String) (as : List DrawingAction) :
    ∀ (s : ServerState) (room : Room), s.rooms rid = some room →
      room.drawingHistory.length ≤ 1000 →
      ∃ room', (applyActions s rid as now).rooms rid = some room' ∧
        room'.drawingHistory =
          (room.drawingHistory ++ as).drop ((room.drawingHistory ++ as).length - 1000) := by
  induction as with
  | nil =>
    intro s room hr hlen
    refine ⟨room, by simpa [applyActions] using hr, ?_⟩
    have h0 : (room.drawingHistory ++ ([] : List DrawingAction)).length - 1000 = 0 := by
      simp only [List.append_nil]
      omega
    rw [h0, List.drop_zero, List.append_nil]
  | cons a as ih =>
    intro s room hr hlen
    have hstep : (addDrawingAction s rid a now).1.rooms rid =
        some { room with
                 drawingHistory := pushHistory room.drawingHistory a,
                 updatedAt := now } := by
      unfold addDrawingAction
      split
      · next h0 => rw [hr] at h0; cases h0
      next room2 hr2 =>
        rw [hr] at hr2
        injection hr2 with hr2
        subst hr2
        simp [setRoom]
    have hplen : (pushHistory room.drawingHistory a).length ≤ 1000 := by
      rw [pushHistory_eq, List.length_drop]
      simp only [List.length_append, List.length_singleton]
      omega
    obtain ⟨room', h1, h2⟩ := ih (addDrawingAction s rid a now).1 _ hstep hplen
    refine ⟨room', ?_, ?_⟩
    · simpa [applyActions] using h1
    · rw [h2]
      show (pushHistory room.drawingHistory a ++ as).drop _ = _
      rw [pushHistory_eq]
      rw [← List.drop_append_of_le_length
        (by simp only [List.length_append, List.length_cons, List.length_nil]; omega)]
      rw [List.drop_drop]
      rw [List.append_assoc, List.singleton_append]
      have hidx : (room.drawingHistory ++ [a]).length - 1000 +
          (((room.drawingHistory ++ a :: as).drop
              ((room.drawingHistory ++ [a]).length - 1000)).length - 1000) =
          (room.drawingHistory ++ a :: as).length - 1000 := by
        simp only [List.length_append, List.length_cons, List.length_drop,
          List.length_nil]
        omega
      rw [hidx]

/-- C7: folding any sequence of drawing actions into a room whose history is
within the cap leaves the history equal to the last-1000 suffix of the full
appended sequence — hence it never exceeds 1000 entries, only a prefix
(the oldest entries) is dropped, and the retained entries are a contiguous
suffix of the appended sequence in their original order. -/
theorem C7_history_cap_suffix (s : ServerState) (rid now : String) (room : Room)
    (as : List DrawingAction) (hr : s.rooms rid = some room)
    (hlen : room.drawingHistory.length ≤ 1000) :
    ∃ room', (applyActions s rid as now).rooms rid = some room' ∧
      room'.drawingHistory =
        (room.drawingHistory ++ as).drop ((room.drawingHistory ++ as).length - 1000) ∧
      room'.drawingHistory.length ≤ 1000 ∧
      ∃ dropped, dropped ++ room'.drawingHistory = room.drawingHistory ++ as := by
  obtain ⟨room', h1, h2⟩ := applyActions_history rid now as s room hr hlen
  refine ⟨room', h1, h2, ?_, ?_⟩
  · rw [h2, List.length_drop]
    omega
  · refine ⟨(room.drawingHistory ++ as).take ((room.drawingHistory ++ as).length - 1000), ?_⟩
    rw [h2, List.take_append_drop]

set_option maxRecDepth 100000 in
/-- Witness for C7: two actions appended to a fresh room leave a history of
exactly those two actions (the 1000 cap not yet reached). -/
theorem C7_history_cap_suffix_witness :
    (let room : Room := ⟨"r", "R", ["a"], [], [], "c", "u"⟩
     let s : ServerState := ⟨fun k => if k = "r" then some room else none, fun _ => none⟩
     let a1 : DrawingAction := ⟨"1", "a", "A", ActionType.draw, "e1", "d", "t1"⟩
     let a2 : DrawingAction := ⟨"2", "a", "A", ActionType.erase, "e2", "d", "t2"⟩
     s.rooms "r" = some room ∧ room.drawingHistory.length ≤ 1000
       ∧ ∃ room', (applyActions s "r" [a1, a2] "n").rooms "r" = some room'
           ∧ room'.drawingHistory = [a1, a2]) := by
  intro room s a1 a2
  refine ⟨rfl, by decide, ?_⟩
  obtain ⟨room', h1, h2, _, _⟩ :=
    C7_history_cap_suffix s "r" "n" room [a1, a2] rfl (by decide)
  exact ⟨room', h1, by rw [h2]; rfl⟩

lemma not_mem_removeId (l : List String) (uid : String) : uid ∉ removeId l uid := by
  induction l with
  | nil => simp [removeId]
  | cons k rest ih =>
    by_cases hk : k = uid
    · simpa [removeId, hk] using ih
    · simp only [removeId, if_neg hk]
      intro hm
      rcases List.mem_cons.mp hm with h1 | h1
      · exact hk h1.symm
      · exact ih h1

/-- C10 as stated fails on the code: when the departing session was the
room's last member, `removeUserFromRoom` deletes the whole room — its lock
table included — so the lock entry naming the departed session does not
remain.  Concretely: room `r` has the single member `a`, which holds the
lock on element `e`; the removal succeeds and afterwards room `r` is absent
from the store. -/
theorem C10_last_member_counterexample :
    (let room : Room := ⟨"r", "R", ["a"], [], [("e", "a")], "c", "u"⟩
     let s : ServerState := ⟨fun k => if k = "r" then some room else none,
       fun k => if k = "a" then some ⟨"a", "A", "r", true, "t"⟩ else none⟩
     mapGet room.lockedElements "e" = some "a"
       ∧ (removeUserFromRoom s "a" "n").2.1 = true
       ∧ (removeUserFromRoom s "a" "n").1.rooms "r" = none) := by
  intro room s
  exact ⟨rfl, rfl, rfl⟩

/-- C10 amended: when the departing session is not the last member, the
removal leaves the room's element-lock table unchanged — every lock entry
naming the departed session remains while the session is gone from the
member set — and an unlock attempt by any other session still fails with the
state untouched; the disconnect cleanup (`closeCase`) produces the same room
store.  (When the departing session was the last member, the room and its
lock table are instead deleted — see the counterexample.) -/
theorem C10_departed_locks_remain (s : ServerState) (uid now now2 : String)
    (user : User) (room : Room) (hu : s.clients uid = some user)
    (hr : s.rooms user.roomId = some room)
    (hrem : (removeId room.users uid).length ≠ 0) :
    (∃ room', (removeUserFromRoom s uid now).1.rooms user.roomId = some room'
       ∧ room'.lockedElements = room.lockedElements
       ∧ uid ∉ room'.users)
    ∧ (∀ e v, mapGet room.lockedElements e = some uid → v ≠ uid →
        unlockElement (removeUserFromRoom s uid now).1 user.roomId e v now2 =
          ((removeUserFromRoom s uid now).1, false, []))
    ∧ (closeCase s uid now).1.rooms = (removeUserFromRoom s uid now).1.rooms := by
  have hmain := (C6_empty_room_deleted s uid now user room hu hr).2
  rw [if_neg hrem] at hmain
  refine ⟨⟨_, hmain, rfl, not_mem_removeId room.users uid⟩, ?_, rfl⟩
  intro e v hlock hv
  unfold unlockElement
  split
  · rfl
  next room2 hr2 =>
    rw [hmain] at hr2
    injection hr2 with hr2
    subst hr2
    split
    · rfl
    next lockedBy hg =>
      have : lockedBy = uid := by
        have : mapGet room.lockedElements e = some lockedBy := hg
        rw [hlock] at this
        injection this with h2
        exact h2.symm
      subst this
      rw [if_pos (Ne.symm hv)]

/-- Witness for C10 amended: room `r` has members `a` and `b`; `a` holds the
lock on `e` and leaves; the lock entry remains and `b` cannot unlock it. -/
theorem C10_departed_locks_remain_witness :
    (let room : Room := ⟨"r", "R", ["a", "b"], [], [("e", "a")], "c", "u"⟩
     let user : User := ⟨"a", "A", "r", true, "t"⟩
     let s : ServerState := ⟨fun k => if k = "r" then some room else none,
       fun k => if k = "a" then some user
         else if k = "b" then some ⟨"b", "B", "r", true, "t"⟩ else none⟩
     s.clients "a" = some user ∧ s.rooms user.roomId = some room
       ∧ (removeId room.users "a").length ≠ 0
       ∧ (∃ room', (removeUserFromRoom s "a" "n").1.rooms user.roomId = some room'
            ∧ room'.lockedElements = room.lockedElements ∧ "a" ∉ room'.users)
       ∧ unlockElement (removeUserFromRoom s "a" "n").1 user.roomId "e" "b" "n2" =
           ((removeUserFromRoom s "a" "n").1, false, [])) := by
  intro room user s
  have h := C10_departed_locks_remain s "a" "n" "n2" user room rfl rfl (by decide)
  exact ⟨rfl, rfl, by decide, h.1, h.2.1 "e" "b" rfl (by decide)⟩

/-- C9: successfully joining a different room B leaves room A — the room the
session's pointer named before — entirely unchanged in the store: the
session is not removed from A's member set, no event at all (in particular
no `user-left`) is addressed to room A, and A is not deleted; afterwards the
session's id sits in both rooms' member sets while its room pointer names
only B. -/
theorem C9_join_second_room_frame (s : ServerState) (cid ridB now : String)
    (unameOpt : Option String) (user : User) (roomA roomB : Room)
    (hc : s.clients cid = some user) (hid : user.id = cid)
    (hA : s.rooms user.roomId = some roomA) (hmem : cid ∈ roomA.users)
    (hne : ridB ≠ user.roomId) (hB : s.rooms ridB = some roomB)
    (hfull : roomB.users.length < 20) :
    (joinRoomCase s cid ridB unameOpt now).1.rooms user.roomId = some roomA
    ∧ cid ∈ roomA.users
    ∧ (∃ roomB', (joinRoomCase s cid ridB unameOpt now).1.rooms ridB = some roomB'
         ∧ cid ∈ roomB'.users)
    ∧ (∃ u', (joinRoomCase s cid ridB unameOpt now).1.clients cid = some u'
         ∧ u'.roomId = ridB)
    ∧ ∀ ev ∈ (joinRoomCase s cid ridB unameOpt now).2, ev.1 ≠ Target.room user.roomId := by
  have hstep : joinRoomCase s cid ridB unameOpt now =
      ((setClient (setRoom (setClient s cid { user with name := uname unameOpt user })
          ridB
          { roomB with
              users := if user.id ∈ roomB.users then roomB.users
                       else roomB.users ++ [user.id],
              updatedAt := now })
        user.id
        { user with
            name := uname unameOpt user,
            roomId := ridB,
            isActive := true,
            lastSeen := now }),
       [(Target.room ridB,
          OutEvent.userJoined user.id (uname unameOpt user)
            (if user.id ∈ roomB.users then roomB.users
             else roomB.users ++ [user.id]).length),
        (Target.user user.id,
          OutEvent.roomState ridB roomB.name
            (if user.id ∈ roomB.users then roomB.users
             else roomB.users ++ [user.id]) roomB.drawingHistory roomB.lockedElements),
        (Target.user cid, OutEvent.roomJoined ridB (uname unameOpt user))]) := by
    unfold joinRoomCase
    rw [hc]
    show (let userName := uname unameOpt user
          let user1 := { user with name := userName }
          let s1 := setClient s cid user1
          let r := addUserToRoom s1 ridB user1 now
          if r.2.1 then
            (r.1, r.2.2 ++ [(Target.user cid, OutEvent.roomJoined ridB userName)])
          else
            (r.1, r.2.2 ++ [(Target.user cid, OutEvent.roomJoinFailed ridB)])) = _
    have haddr : addUserToRoom (setClient s cid { user with name := uname unameOpt user })
        ridB { user with name := uname unameOpt user } now =
        ((setClient (setRoom (setClient s cid { user with name := uname unameOpt user })
            ridB
            { roomB with
                users := if user.id ∈ roomB.users then roomB.users
                         else roomB.users ++ [user.id],
                updatedAt := now })
          user.id
          { user with
              name := uname unameOpt user,
              roomId := ridB,
              isActive := true,
              lastSeen := now }),
         true,
         [(Target.room ridB,
            OutEvent.userJoined user.id (uname unameOpt user)
              (if user.id ∈ roomB.users then roomB.users
               else roomB.users ++ [user.id]).length),
          (Target.user user.id,
            OutEvent.roomState ridB roomB.name
              (if user.id ∈ roomB.users then roomB.users
               else roomB.users ++ [user.id]) roomB.drawingHistory
              roomB.lockedElements)]) := by
      unfold addUserToRoom
      have hB1 : (setClient s cid
          { user with name := uname unameOpt user }).rooms ridB = some roomB := hB
      rw [hB1]
      dsimp only
      rw [if_neg (Nat.not_le.mpr hfull)]
    dsimp only
    rw [haddr]
    rfl
  rw [hstep]
  refine ⟨?_, hmem, ?_, ?_, ?_⟩
  · show (setClient _ _ _).rooms user.roomId = some roomA
    simp only [setClient, setRoom]
    rw [if_neg (fun h => hne h.symm)]
    exact hA
  · refine ⟨{ roomB with
                users := if user.id ∈ roomB.users then roomB.users
                         else roomB.users ++ [user.id],
                updatedAt := now },
             ?_, ?_⟩
    · show (setClient _ _ _).rooms ridB = some _
      simp [setClient, setRoom]
    · show cid ∈ (if user.id ∈ roomB.users then roomB.users else roomB.users ++ [user.id])
      rw [hid]
      by_cases hin : cid ∈ roomB.users
      · rw [if_pos hin]; exact hin
      · rw [if_neg hin]
        exact List.mem_append.mpr (Or.inr (List.mem_singleton.mpr rfl))
  · refine ⟨{ user with
                name := uname unameOpt user,
                roomId := ridB,
                isActive := true,
                lastSeen := now },
             ?_, rfl⟩
    show (setClient _ user.id _).clients cid = some _
    simp only [setClient, setRoom]
    rw [hid, if_pos rfl]
  · intro ev hev
    rcases List.mem_cons.mp hev with h1 | hev2
    · rw [h1]
      intro hcontra
      exact hne (Target.room.inj hcontra)
    rcases List.mem_cons.mp hev2 with h1 | hev3
    · rw [h1]
      intro hcontra
      cases hcontra
    rcases List.mem_cons.mp hev3 with h1 | hev4
    · rw [h1]
      intro hcontra
      cases hcontra
    · exact absurd hev4 (List.not_mem_nil ev)

/-- Witness for C9: session `a`, a member of room `A`, joins room `B`; it
remains in `A`'s member set, appears in `B`'s, and its pointer names `B`. -/
theorem C9_join_second_room_frame_witness :
    (let roomA : Room := ⟨"A", "RA", ["a"], [], [], "c", "u"⟩
     let roomB : Room := ⟨"B", "RB", [], [], [], "c", "u"⟩
     let user : User := ⟨"a", "A1", "A", true, "t"⟩
     let s : ServerState :=
       ⟨fun k => if k = "A" then some roomA else if k = "B" then some roomB else none,
        fun k => if k = "a" then some user else none⟩
     s.clients "a" = some user ∧ user.roomId = "A" ∧ s.rooms "A" = some roomA
       ∧ "a" ∈ roomA.users ∧ s.rooms "B" = some roomB
       ∧ (joinRoomCase s "a" "B" none "n").1.rooms "A" = some roomA
       ∧ (∃ roomB', (joinRoomCase s "a" "B" none "n").1.rooms "B" = some roomB'
            ∧ "a" ∈ roomB'.users)
       ∧ (∃ u', (joinRoomCase s "a" "B" none "n").1.clients "a" = some u'
            ∧ u'.roomId = "B")) := by
  intro roomA roomB user s
  have h := C9_join_second_room_frame s "a" "B" "n" none user roomA roomB rfl rfl rfl
    (by decide) (by decide) rfl (by decide)
  exact ⟨rfl, rfl, rfl, by decide, rfl, h.1, h.2.2.1, h.2.2.2.1⟩

lemma handleDocumentConflict_valid_eq (ds : DocState) (pid uid content ts : String)
    (uname2 : Option String) (cpos : Option Nat) (atype : Option String)
    (parse : String → Nat) (nowTs : Nat) (nowStr mergeId : String)
    (hpid : pid ≠ "") (huid : uid ≠ "") (hcontent : content ≠ "") (hts : ts ≠ "") :
    handleDocumentConflict ds ⟨some pid, some uid, uname2, cpos, atype, some content,
        some ts⟩ parse nowTs nowStr mergeId =
      (match ds.documents pid with
       | none =>
         ({ ds with documents := setDoc ds.documents pid ⟨content, 1, ts, uid⟩ }, [])
       | some currentDoc =>
         if currentDoc.lastModified ≠ ts ∧ currentDoc.lastModifiedBy ≠ uid then
           (let m := mergeDocuments currentDoc.content content uid pid
               currentDoc.lastModifiedBy (parse currentDoc.lastModified) nowTs nowStr
               mergeId
            ({ documents := setDoc ds.documents pid
                 ⟨m.1, currentDoc.version + 1, nowStr, uid⟩,
               mergeLogs := match m.2 with
                            | some entry => capLogs (ds.mergeLogs ++ [entry])
                            | none => ds.mergeLogs },
             [(Target.all,
               OutEvent.documentMerged pid m.1 (currentDoc.version + 1) uid nowStr)]))
         else
           ({ ds with
                documents := setDoc ds.documents pid
                  ⟨content, currentDoc.version + 1, ts, uid⟩ },
            [])) := by
  have hguard : (truthy (some pid) && truthy (some uid) && truthy (some content) &&
      truthy (some ts)) = true := by
    simp [truthy, hpid, huid, hcontent, hts]
  unfold handleDocumentConflict
  dsimp only [Option.getD]
  rw [if_pos hguard]

/-- C1: for a valid edit to a project that already has a document, the merge
path (a `document-merged` broadcast) is taken exactly when the edit's declared
timestamp differs from the stored `lastModified` and its author differs from
the stored `lastModifiedBy`; with the same author or the same timestamp the
edit is sequential — the content is replaced verbatim, the version is
incremented, nothing is broadcast and no merge-log entry is appended. -/
theorem C1_conflict_iff_both_differ (ds : DocState) (pid uid content ts : String)
    (uname2 : Option String) (cpos : Option Nat) (atype : Option String)
    (parse : String → Nat) (nowTs : Nat) (nowStr mergeId : String)
    (cur : DocumentContent)
    (hpid : pid ≠ "") (huid : uid ≠ "") (hcontent : content ≠ "") (hts : ts ≠ "")
    (hdoc : ds.documents pid = some cur) :
    ((handleDocumentConflict ds ⟨some pid, some uid, uname2, cpos, atype, some content,
        some ts⟩ parse nowTs nowStr mergeId).2 ≠ []
      ↔ (cur.lastModified ≠ ts ∧ cur.lastModifiedBy ≠ uid))
    ∧ ((cur.lastModified = ts ∨ cur.lastModifiedBy = uid) →
        (handleDocumentConflict ds ⟨some pid, some uid, uname2, cpos, atype,
            some content, some ts⟩ parse nowTs nowStr mergeId).2 = []
        ∧ (handleDocumentConflict ds ⟨some pid, some uid, uname2, cpos, atype,
            some content, some ts⟩ parse nowTs nowStr mergeId).1.documents pid =
            some ⟨content, cur.version + 1, ts, uid⟩
        ∧ (handleDocumentConflict ds ⟨some pid, some uid, uname2, cpos, atype,
            some content, some ts⟩ parse nowTs nowStr mergeId).1.mergeLogs =
            ds.mergeLogs) := by
  have heq := handleDocumentConflict_valid_eq ds pid uid content ts uname2 cpos atype
    parse nowTs nowStr mergeId hpid huid hcontent hts
  rw [hdoc] at heq
  dsimp only at heq
  constructor
  · constructor
    · intro hne2
      by_cases hc2 : cur.lastModified ≠ ts ∧ cur.lastModifiedBy ≠ uid
      · exact hc2
      · rw [heq] at hne2
        rw [if_neg hc2] at hne2
        exact absurd rfl hne2
    · intro hc2
      rw [heq, if_pos hc2]
      simp
  · intro hseq
    have hc2 : ¬ (cur.lastModified ≠ ts ∧ cur.lastModifiedBy ≠ uid) := by
      rcases hseq with h | h
      · intro hc; exact hc.1 h
      · intro hc; exact hc.2 h
    rw [heq, if_neg hc2]
    refine ⟨rfl, ?_, rfl⟩
    simp [setDoc]

/-- Witness for C1: project `P` stores `⟨"hello", 1, "t1", "X"⟩`; an edit by
`Y` at `t2` (both differ) takes the merge path, and an edit by `X` (same
author) is sequential: content replaced, version 2, no broadcast. -/
theorem C1_conflict_iff_both_differ_witness :
    (let ds : DocState :=
       ⟨fun k => if k = "P" then some ⟨"hello", 1, "t1", "X"⟩ else none, []⟩
     ds.documents "P" = some ⟨"hello", 1, "t1", "X"⟩
       ∧ (handleDocumentConflict ds ⟨some "P", some "Y", none, none, none,
            some "goodbye", some "t2"⟩ (fun _ => 0) 1 "n" "m").2 ≠ []
       ∧ (handleDocumentConflict ds ⟨some "P", some "X", none, none, none,
            some "bye", some "t9"⟩ (fun _ => 0) 1 "n" "m").2 = []
       ∧ (handleDocumentConflict ds ⟨some "P", some "X", none, none, none,
            some "bye", some "t9"⟩ (fun _ => 0) 1 "n" "m").1.documents "P" =
           some ⟨"bye", 2, "t9", "X"⟩) := by
  intro ds
  have hconf := (C1_conflict_iff_both_differ ds "P" "Y" "goodbye" "t2" none none none
    (fun _ => 0) 1 "n" "m" ⟨"hello", 1, "t1", "X"⟩
    (by decide) (by decide) (by decide) (by decide) rfl).1.mpr
    ⟨by decide, by decide⟩
  have hseq := (C1_conflict_iff_both_differ ds "P" "X" "bye" "t9" none none none
    (fun _ => 0) 1 "n" "m" ⟨"hello", 1, "t1", "X"⟩
    (by decide) (by decide) (by decide) (by decide) rfl).2
    (Or.inr rfl)
  exact ⟨rfl, hconf, hseq.1, hseq.2.1⟩

/-- C3: a processed (valid) `document-edit` leaves project `pid` with a
document whose version is 1 when no document existed, and the previous
version plus 1 when one did — on the conflict path and the no-conflict path
alike, so the per-project version counter starts at 1 and strictly increases
by one with every processed edit. -/
theorem C3_version_starts_at_one_and_increments (ds : DocState)
    (pid uid content ts : String)
    (uname2 : Option String) (cpos : Option Nat) (atype : Option String)
    (parse : String → Nat) (nowTs : Nat) (nowStr mergeId : String)
    (hpid : pid ≠ "") (huid : uid ≠ "") (hcontent : content ≠ "") (hts : ts ≠ "") :
    ∃ d, (handleDocumentConflict ds ⟨some pid, some uid, uname2, cpos, atype,
        some content, some ts⟩ parse nowTs nowStr mergeId).1.documents pid = some d
      ∧ d.version = (match ds.documents pid with
                     | none => 1
                     | some cur => cur.version + 1) := by
  have heq := handleDocumentConflict_valid_eq ds pid uid content ts uname2 cpos atype
    parse nowTs nowStr mergeId hpid huid hcontent hts
  cases hdoc : ds.documents pid with
  | none =>
    rw [hdoc] at heq
    dsimp only at heq
    refine ⟨⟨content, 1, ts, uid⟩, ?_, rfl⟩
    rw [heq]
    simp [setDoc]
  | some cur =>
    rw [hdoc] at heq
    dsimp only at heq
    by_cases hc2 : cur.lastModified ≠ ts ∧ cur.lastModifiedBy ≠ uid
    · rw [if_pos hc2] at heq
      refine ⟨⟨(mergeDocuments cur.content content uid pid cur.lastModifiedBy
          (parse cur.lastModified) nowTs nowStr mergeId).1,
          cur.version + 1, nowStr, uid⟩, ?_, rfl⟩
      rw [heq]
      simp [setDoc]
    · rw [if_neg hc2] at heq
      refine ⟨⟨content, cur.version + 1, ts, uid⟩, ?_, rfl⟩
      rw [heq]
      simp [setDoc]

/-- Witness for C3: a first edit creates version 1, and a second (conflicting)
edit moves the project to version 2. -/
theorem C3_version_starts_at_one_and_increments_witness :
    (let ds0 : DocState := ⟨fun _ => none, []⟩
     let ds1 := (handleDocumentConflict ds0 ⟨some "P", some "X", none, none, none,
       some "hello", some "t1"⟩ (fun _ => 0) 1 "n" "m").1
     (∃ d, ds1.documents "P" = some d ∧ d.version = 1)
     ∧ ∃ d, (handleDocumentConflict ds1 ⟨some "P", some "Y", none, none, none,
         some "goodbye", some "t2"⟩ (fun _ => 0) 1 "n" "m").1.documents "P" = some d
         ∧ d.version = 2) := by
  intro ds0 ds1
  constructor
  · have h := C3_version_starts_at_one_and_increments ds0 "P" "X" "hello" "t1"
      none none none (fun _ => 0) 1 "n" "m"
      (by decide) (by decide) (by decide) (by decide)
    obtain ⟨d, hd, hv⟩ := h
    exact ⟨d, hd, by rw [hv]⟩
  · have h := C3_version_starts_at_one_and_increments ds1 "P" "Y" "goodbye" "t2"
      none none none (fun _ => 0) 1 "n" "m"
      (by decide) (by decide) (by decide) (by decide)
    obtain ⟨d, hd, hv⟩ := h
    refine ⟨d, hd, ?_⟩
    rw [hv]
    rfl

/-- C8: a `document-edit` payload with a missing (or empty) project id,
author, content or timestamp is rejected inside the merge engine before any
of its state is touched: no project's document (hence no version) changes,
the merge log is untouched, and nothing is broadcast.  (The dispatcher's
room-independent activity ring is updated before the engine runs, as §4.4
specifies, and is not part of the merge-engine state this claim concerns.) -/
theorem C8_invalid_edit_rejected (acts : String → List Activity) (ds : DocState)
    (data : EditData) (clientId clientName : String) (parse : String → Nat)
    (nowTs : Nat) (nowStr activityId mergeId : String)
    (hinvalid : truthy data.projectId = false ∨ truthy data.userId = false ∨
      truthy data.content = false ∨ truthy data.timestamp = false) :
    (∀ pid, (documentEditCase acts ds data clientId clientName parse nowTs nowStr
        activityId mergeId).2.1.documents pid = ds.documents pid)
    ∧ (documentEditCase acts ds data clientId clientName parse nowTs nowStr
        activityId mergeId).2.1.mergeLogs = ds.mergeLogs
    ∧ (documentEditCase acts ds data clientId clientName parse nowTs nowStr
        activityId mergeId).2.2 = [] := by
  have hguard : (truthy data.projectId && truthy data.userId && truthy data.content &&
      truthy data.timestamp) = false := by
    rcases hinvalid with h | h | h | h <;> simp [h]
  have hh : handleDocumentConflict ds data parse nowTs nowStr mergeId = (ds, []) := by
    unfold handleDocumentConflict
    rw [if_neg (by simp [hguard])]
  unfold documentEditCase
  dsimp only
  rw [hh]
  exact ⟨fun pid => rfl, rfl, rfl⟩

/-- Witness for C8: an edit with no content field leaves the document store,
the merge log and the broadcast list untouched. -/
theorem C8_invalid_edit_rejected_witness :
    (let ds : DocState :=
       ⟨fun k => if k = "P" then some ⟨"hello", 1, "t1", "X"⟩ else none, []⟩
     let data : EditData := ⟨some "P", some "X", none, none, none, none, some "t9"⟩
     truthy data.content = false
       ∧ (documentEditCase (fun _ => []) ds data "c" "C" (fun _ => 0) 1 "n" "a"
            "m").2.1.documents "P" = ds.documents "P"
       ∧ (documentEditCase (fun _ => []) ds data "c" "C" (fun _ => 0) 1 "n" "a"
            "m").2.2 = []) := by
  intro ds data
  have h := C8_invalid_edit_rejected (fun _ => []) ds data "c" "C" (fun _ => 0) 1
    "n" "a" "m" (Or.inr (Or.inr (Or.inl rfl)))
  exact ⟨rfl, h.1 "P", h.2.2⟩

/-- Structural companion of `mergeLoop`: pairwise combination of base and
incoming lines, appending the incoming surplus.  Used only to reason about
the index-driven loop. -/
def mergeZip (curTs nowTs : Nat) : List String → List String → List String
  | base, [] => base
  | [], u :: us => u :: mergeZip curTs nowTs [] us
  | b :: bs, u :: us =>
    (if b ≠ u ∧ curTs < nowTs then u else b) :: mergeZip curTs nowTs bs us

lemma get_append_len (done : List String) (b : String) (bs : List String)
    (h : done.length < (done ++ b :: bs).length) :
    (done ++ b :: bs).get ⟨done.length, h⟩ = b := by
  rw [List.get_eq_getElem, List.getElem_append_right (Nat.le_refl _)]
  simp

lemma set_append_len (done : List String) (b u : String) (bs : List String) :
    (done ++ b :: bs).set done.length u = done ++ u :: bs := by
  rw [List.set_append_right _ _ (Nat.le_refl _)]
  simp [List.set]

lemma mergeLoop_eq_zip (curTs nowTs : Nat) (us : List String) :
    ∀ (done rest : List String),
      mergeLoop curTs nowTs (done ++ rest) us done.length =
        done ++ mergeZip curTs nowTs rest us := by
  induction us with
  | nil => intro done rest; simp only [mergeLoop, mergeZip]
  | cons u us ih =>
    intro done rest
    have key : ∀ c, mergeLoop curTs nowTs (done ++ c :: rest.tail) us
        (done.length + 1) = done ++ c :: mergeZip curTs nowTs rest.tail us := by
      intro c
      have h2 := ih (done ++ [c]) rest.tail
      simp only [List.append_assoc, List.singleton_append, List.length_append,
        List.length_cons, List.length_nil, Nat.zero_add] at h2
      exact h2
    cases rest with
    | nil =>
      rw [List.append_nil]
      simp only [mergeLoop]
      rw [dif_neg (lt_irrefl done.length)]
      have h2 := ih (done ++ [u]) []
      rw [List.append_nil] at h2
      simp only [List.append_assoc, List.singleton_append, List.length_append,
        List.length_cons, List.length_nil, Nat.zero_add] at h2
      rw [h2]
      simp only [mergeZip]
    | cons b bs =>
      simp only [mergeLoop]
      have hlt : done.length < (done ++ b :: bs).length := by
        simp [List.length_append]
      rw [dif_pos hlt, get_append_len]
      by_cases hbu : b ≠ u
      · by_cases htime : curTs < nowTs
        · rw [if_pos hbu, if_pos htime, set_append_len]
          have hk := key u
          simp only [List.tail_cons] at hk
          rw [hk]
          show _ = done ++ mergeZip curTs nowTs (b :: bs) (u :: us)
          simp only [mergeZip, if_pos (And.intro hbu htime)]
        · rw [if_pos hbu, if_neg htime]
          have hk := key b
          simp only [List.tail_cons] at hk
          rw [hk]
          show _ = done ++ mergeZip curTs nowTs (b :: bs) (u :: us)
          simp only [mergeZip]
          rw [if_neg (fun hc => htime hc.2)]
      · rw [if_neg hbu]
        have hk := key b
        simp only [List.tail_cons] at hk
        rw [hk]
        show _ = done ++ mergeZip curTs nowTs (b :: bs) (u :: us)
        simp only [mergeZip]
        rw [if_neg (fun hc => hbu hc.1)]

lemma mergeZip_getElem (curTs nowTs : Nat) (us : List String) :
    ∀ (base : List String) (i : Nat),
      (mergeZip curTs nowTs base us)[i]? =
        match base[i]?, us[i]? with
        | some b, some u => some (if b ≠ u ∧ curTs < nowTs then u else b)
        | some b, none => some b
        | none, o => o := by
  induction us with
  | nil =>
    intro base i
    cases h : base[i]? <;> simp [mergeZip, h]
  | cons u us ih =>
    intro base i
    cases base with
    | nil =>
      cases i with
      | zero => simp [mergeZip]
      | succ n =>
        simp only [mergeZip, List.getElem?_cons_succ, List.getElem?_nil]
        rw [ih [] n]
        cases h : us[n]? <;> simp [h]
    | cons b bs =>
      cases i with
      | zero => simp [mergeZip]
      | succ n =>
        simp only [mergeZip, List.getElem?_cons_succ]
        exact ih bs n

/-- C2: for a conflicting edit with non-empty inputs, the merge output is the
newline-join of the line loop's result, and that result is characterised line
by line: an incoming line at an index beyond the stored lines is appended; at
an index both sides share, the stored line stays unless the incoming line
differs from it and the incoming edit's effective timestamp (`nowTs`, the
freshly generated wall-clock value) is judged newer than the stored
document's last-modified time (`curTs`), in which case the incoming line
replaces it. -/
theorem C2_merge_line_rule (cur userC uid pid storedBy nowStr mid : String)
    (curTs nowTs : Nat)
    (h1 : cur ≠ "") (h2 : userC ≠ "") (h3 : uid ≠ "") (h4 : pid ≠ "") :
    (mergeDocuments cur userC uid pid storedBy curTs nowTs nowStr mid).1 =
      joinNl (mergeLoop curTs nowTs (splitLines cur) (splitLines userC) 0)
    ∧ ∀ i : Nat, (mergeLoop curTs nowTs (splitLines cur) (splitLines userC) 0)[i]? =
        (match (splitLines cur)[i]?, (splitLines userC)[i]? with
         | some b, some u => some (if b ≠ u ∧ curTs < nowTs then u else b)
         | some b, none => some b
         | none, o => o : Option String) := by
  constructor
  · unfold mergeDocuments
    rw [if_neg (by simp [h1, h2, h3, h4])]
  · intro i
    have hz := mergeLoop_eq_zip curTs nowTs (splitLines userC) [] (splitLines cur)
    simp only [List.nil_append, List.length_nil] at hz
    rw [hz]
    exact mergeZip_getElem curTs nowTs (splitLines userC) (splitLines cur) i

/-- Witness for C2 at base `"a\nb"` and incoming `"x\nb\nw"`: with the
incoming edit judged newer the merge yields `"x\nb\nw"` (line 0 replaced,
line 1 equal, line 2 appended); with it judged older the merge yields
`"a\nb\nw"` (differing line kept from the base, surplus line appended). -/
theorem C2_merge_line_rule_witness :
    (("a\nb" : String) ≠ "" ∧ ("x\nb\nw" : String) ≠ "" ∧ ("Y" : String) ≠ ""
      ∧ ("P" : String) ≠ "")
    ∧ (mergeDocuments "a\nb" "x\nb\nw" "Y" "P" "X" 0 1 "t" "m").1 =
        joinNl (mergeLoop 0 1 (splitLines "a\nb") (splitLines "x\nb\nw") 0)
    ∧ (mergeLoop 0 1 (splitLines "a\nb") (splitLines "x\nb\nw") 0)[0]? = some "x"
    ∧ (mergeLoop 0 1 (splitLines "a\nb") (splitLines "x\nb\nw") 0)[2]? = some "w"
    ∧ (mergeDocuments "a\nb" "x\nb\nw" "Y" "P" "X" 0 1 "t" "m").1 = "x\nb\nw"
    ∧ (mergeDocuments "a\nb" "x\nb\nw" "Y" "P" "X" 5 1 "t" "m").1 = "a\nb\nw" := by
  have h := C2_merge_line_rule "a\nb" "x\nb\nw" "Y" "P" "X" "t" "m" 0 1
    (by decide) (by decide) (by decide) (by decide)
  refine ⟨⟨by decide, by decide, by decide, by decide⟩, h.1, ?_, ?_, by decide,
    by decide⟩
  · rw [h.2 0]
    decide
  · rw [h.2 2]
    decide

end Collab
